import Mathlib

/-!
Verification of the screening & scoring engine of the china-stock-analysis
scripts (`stock_screener.py`, `data_fetcher.py`).

The Python code is shallowly embedded: a dataframe is a column list plus a
list of association-list rows; a cell holds a Python value (`None`, `int`,
`float`, `str`); Python floats are modelled exactly as a finite rational, NaN,
or a signed infinity.  The akshare network calls are abstracted as an
environment recording the outcome of each call.
-/

namespace StockScreen

/-- Model of a Python `float` value: a finite rational, NaN, or a signed
infinity (`neg = true` means negative infinity).  The binary-double rounding
of CPython is not modelled; all finite values are exact rationals. -/
inductive PFloat where
  | finite (q : ℚ)
  | nan
  | inf (neg : Bool)
deriving DecidableEq, Repr

namespace PFloat

/-- Predicate `np.isnan` / `math.isnan`. -/
def isNan : PFloat → Bool
  | nan => true
  | _ => false

/-- True for finite values only. -/
def isFinite : PFloat → Bool
  | finite _ => true
  | _ => false

/-- IEEE-style strict less-than: every comparison with NaN is false. -/
def ltb : PFloat → PFloat → Bool
  | nan, _ => false
  | _, nan => false
  | finite p, finite q => decide (p < q)
  | finite _, inf n => !n
  | inf n, finite _ => n
  | inf a, inf b => a && !b

/-- IEEE-style less-or-equal: every comparison with NaN is false. -/
def leb : PFloat → PFloat → Bool
  | nan, _ => false
  | _, nan => false
  | finite p, finite q => decide (p ≤ q)
  | finite _, inf n => !n
  | inf n, finite _ => n
  | inf a, inf b => a || !b

/-- Strict greater-than (NaN compares false). -/
def gtb (a b : PFloat) : Bool := ltb b a

/-- Greater-or-equal (NaN compares false). -/
def geb (a b : PFloat) : Bool := leb b a

/-- Division by `1e8`, the 总市值 → 亿 unit conversion. -/
def div1e8 : PFloat → PFloat
  | finite q => finite (q / 100000000)
  | nan => nan
  | inf n => inf n

/-- Python `round(x, 2)` on the exact-rational model: round half to even at
two decimal places. -/
def round2 : PFloat → PFloat
  | finite q =>
      let x : ℚ := q * 100
      let f : ℤ := ⌊x⌋
      let r : ℚ := x - f
      let n : ℤ :=
        if r < 1/2 then f
        else if r > 1/2 then f + 1
        else if f % 2 = 0 then f else f + 1
      finite ((n : ℚ) / 100)
  | nan => nan
  | inf n => inf n

end PFloat

/-- Model of the Python cell values occurring in the screener dataframes. -/
inductive PyVal where
  | pnone
  | pint (n : ℤ)
  | pfloat (x : PFloat)
  | pstr (s : String)
deriving DecidableEq, Repr

/-- Value of a digit string as a natural number. -/
def digitsToNat (l : List Char) : ℕ :=
  l.foldl (fun a c => a * 10 + (c.toNat - 48)) 0

/-- Parse an unsigned decimal literal `digits[.digits][(e|E)[sign]digits]`
with at least one mantissa digit.  This is the numeric core shared by Python
`float(str)` and the per-cell parse of `pd.to_numeric`; digit-group
underscores and overflow to infinity are not modelled (no claim depends on
them). -/
def parseDecimal (l : List Char) : Option ℚ :=
  let mant := l.takeWhile (fun c => c != 'e' && c != 'E')
  let erest := l.dropWhile (fun c => c != 'e' && c != 'E')
  let expo : Option ℤ :=
    match erest with
    | [] => some 0
    | _ :: es =>
      let sgn : Bool × List Char :=
        match es with
        | '-' :: t => (true, t)
        | '+' :: t => (false, t)
        | t => (false, t)
      if sgn.2 ≠ [] ∧ sgn.2.all Char.isDigit then
        some (if sgn.1 then -(digitsToNat sgn.2 : ℤ) else (digitsToNat sgn.2 : ℤ))
      else none
  match expo with
  | none => none
  | some e =>
    let ip := mant.takeWhile (fun c => c != '.')
    let frest := mant.dropWhile (fun c => c != '.')
    let fp : Option (List Char) :=
      match frest with
      | [] => some []
      | _ :: t => if t.all Char.isDigit then some t else none
    match fp with
    | none => none
    | some t =>
      if ip.all Char.isDigit ∧ (ip ≠ [] ∨ t ≠ []) then
        some ((digitsToNat (ip ++ t) : ℚ) / 10 ^ t.length * (10 : ℚ) ^ e)
      else none

/-- Strip leading and trailing whitespace from a character list. -/
def trimChars (l : List Char) : List Char :=
  ((l.dropWhile Char.isWhitespace).reverse.dropWhile Char.isWhitespace).reverse

/-- Model of Python `float(str)`: strip surrounding whitespace, take an
optional sign, then either a special token `nan` / `inf` / `infinity`
(case-insensitive) or a decimal literal.  `float("nan")` is NaN (the sign is
irrelevant for NaN), `float("inf")` is an infinity. -/
def pyFloatOfString (s : String) : Option PFloat :=
  let t := trimChars s.toList
  let neg : Bool := match t with | '-' :: _ => true | _ => false
  let u : List Char :=
    match t with
    | '-' :: rest => rest
    | '+' :: rest => rest
    | _ => t
  let l := u.map Char.toLower
  if l = "nan".toList then some PFloat.nan
  else if l = "inf".toList ∨ l = "infinity".toList then some (PFloat.inf neg)
  else (parseDecimal u).map fun q => PFloat.finite (if neg then -q else q)

/-- Python `float(value)` applied to a cell value; the `Except` error is the
exception `float` raises (`TypeError` for `None`, `ValueError` for
unparseable text). -/
def pyFloat : PyVal → Except String PFloat
  | .pnone => .error "TypeError"
  | .pint n => .ok (.finite n)
  | .pfloat x => .ok x
  | .pstr s =>
    match pyFloatOfString s with
    | some x => .ok x
    | none => .error "ValueError"

/-- One-cell semantics of `pd.to_numeric` with errors=coerce: values
that cannot be parsed coerce to NaN instead of raising. -/
def pdToNumeric : PyVal → PFloat
  | .pnone => .nan
  | .pint n => .finite n
  | .pfloat x => x
  | .pstr s => (pyFloatOfString s).getD .nan

/-- Python truthiness of a cell value (`if row.get(...)`); note that the
float NaN is truthy. -/
def pyTruthy : PyVal → Bool
  | .pnone => false
  | .pint n => decide (n ≠ 0)
  | .pfloat x =>
    match x with
    | .finite q => decide (q ≠ 0)
    | _ => true
  | .pstr s => decide (s ≠ "")

/-- `pd.isna` on a scalar cell. -/
def pdIsna : PyVal → Bool
  | .pnone => true
  | .pfloat .nan => true
  | _ => false

/-- The replace chain of `safe_float`: drop every percent sign, comma and
亿 character (each replaced pattern is a single character, so the chain of
replacements is a character filter). -/
def stripNumNoise (s : String) : String :=
  String.mk (s.toList.filter (fun c => c != '%' && c != ',' && c != '亿'))

/-- `safe_float` from `data_fetcher.py`, line by line: `None`, the empty
string and the double-dash sentinel, and `pd.isna` values map to `None`;
strings are de-noised and handed to `float`, whose `ValueError` is caught
and mapped to `None`. -/
def safe_float (v : PyVal) : Option PFloat :=
  if v = .pnone ∨ v = .pstr "" ∨ v = .pstr "--" then none
  else if pdIsna v then none
  else
    match v with
    | .pstr s =>
      match pyFloatOfString (stripNumNoise s) with
      | some x => some x
      | none => none
    | .pfloat x => some x
    | .pint n => some (.finite n)
    | .pnone => none

/-- A dataframe row: an association list from column name to cell value
(keys are unique in practice; lookups take the first binding). -/
abbrev Row := List (String × PyVal)

/-- `row.get(c)` with no default (`None` when the key is absent): the first
binding of `c`. -/
def rowGet : Row → String → Option PyVal
  | [], _ => none
  | p :: t, c => if p.1 = c then some p.2 else rowGet t c

/-- `row.get(c, d)`. -/
def rowGetD (r : Row) (c : String) (d : PyVal) : PyVal :=
  (rowGet r c).getD d

/-- Column assignment on one row: replace the first binding of `c`, or append
a new one. -/
def rowSet : Row → String → PyVal → Row
  | [], c, v => [(c, v)]
  | p :: t, c, v => if p.1 = c then (c, v) :: t else p :: rowSet t c v

/-- A pandas DataFrame: an ordered column list and an ordered row list. -/
structure DataFrame where
  cols : List String
  rows : List Row
deriving DecidableEq, Repr

/-- `pd.DataFrame()`, the empty frame returned on acquisition failure. -/
def DataFrame.emptyDf : DataFrame := ⟨[], []⟩

/-- `df.empty`: true when either axis has length zero. -/
def DataFrame.isEmptyDf (df : DataFrame) : Bool :=
  df.rows.isEmpty || df.cols.isEmpty

/-- Column-list update for a frame-level column assignment (append the name
if it is new). -/
def addColName (cols : List String) (c : String) : List String :=
  if c ∈ cols then cols else cols ++ [c]

/-- A pandas column label: akshare data columns are strings, but
`Index.to_frame()` on an unnamed index labels its single column with the
integer `0`, which no string equals. -/
inductive PandasCol where
  | iname (n : ℤ)
  | sname (s : String)
deriving DecidableEq, Repr

/-- `_find_column(df, candidates)`: the first candidate present among the
column labels of the given frame, else `None`. -/
def findColumnIn (cols : List PandasCol) (cands : List String) : Option String :=
  cands.find? (fun c => decide (PandasCol.sname c ∈ cols))

/-- `_find_column` applied to a data frame (all labels are strings). -/
def find_column (df : DataFrame) (cands : List String) : Option String :=
  findColumnIn (df.cols.map PandasCol.sname) cands

/-- The column labels of `row.index.to_frame()` as used in `calculate_score`:
`Index.to_frame()` makes the index *values* the rows of the new frame and
labels its single column with the *name* of the index — the integer `0`,
since the column index of the loaded data is unnamed.  The keys of the row
itself are therefore never among these labels. -/
def rowIndexFrameCols (_r : Row) : List PandasCol := [PandasCol.iname 0]

/-- The ROE alias list of `stock_screener.py`. -/
def roeAliases : List String := ["净资产收益率", "ROE", "加权净资产收益率"]

/-- `_get_numeric_value`: `pd.to_numeric` with errors=coerce applied to
`row.get(column, np.nan)`. -/
def get_numeric_value (r : Row) (c : String) : PFloat :=
  pdToNumeric (rowGetD r c (.pfloat .nan))

/-- The unclamped score accumulated by `calculate_score` before the final
`max(0, min(100, score))`.  The `try` body cannot raise on the modelled cell
types (all scalar operations used are total), so the `except: pass` is dead
and the accumulation is a pure function. -/
def preScore (r : Row) : ℤ :=
  let score : ℤ := 50
  let pe := get_numeric_value r "市盈率-动态"
  let score :=
    if !pe.isNan && pe.gtb (.finite 0) then
      if pe.ltb (.finite 10) then score + 15
      else if pe.ltb (.finite 15) then score + 10
      else if pe.ltb (.finite 20) then score + 5
      else if pe.gtb (.finite 50) then score - 10
      else score
    else score
  let pb := get_numeric_value r "市净率"
  let score :=
    if !pb.isNan && pb.gtb (.finite 0) then
      if (PFloat.finite (mkRat 1 2)).ltb pb && pb.ltb (.finite (mkRat 3 2)) then
        score + 10
      else if (PFloat.finite (mkRat 3 2)).leb pb && pb.ltb (.finite 3) then
        score + 5
      else if pb.gtb (.finite 5) then score - 5
      else score
    else score
  let score :=
    match findColumnIn (rowIndexFrameCols r) roeAliases with
    | some roeCol =>
      let roe := get_numeric_value r roeCol
      if !roe.isNan then
        if roe.gtb (.finite 20) then score + 15
        else if roe.gtb (.finite 15) then score + 10
        else if roe.gtb (.finite 10) then score + 5
        else if roe.ltb (.finite 5) then score - 5
        else score
      else score
    | none => score
  let change := get_numeric_value r "涨跌幅"
  let score :=
    if !change.isNan then
      if (PFloat.finite (-5)).ltb change && change.ltb (.finite 0) then score + 3
      else if change.ltb (.finite (-5)) then score + 5
      else score
    else score
  score

/-- `calculate_score` from `stock_screener.py`. -/
def calculate_score (r : Row) : ℤ :=
  max 0 (min 100 (preScore r))

/-- The filter spec (`filters` dict): every field optional, unset fields
unconstrained.  `dividend_min` is accepted by the CLI but never read by
`apply_filters` or `calculate_score`. -/
structure Filters where
  pe_min : Option ℚ := none
  pe_max : Option ℚ := none
  pb_min : Option ℚ := none
  pb_max : Option ℚ := none
  roe_min : Option ℚ := none
  debt_ratio_max : Option ℚ := none
  dividend_min : Option ℚ := none
  market_cap_min : Option ℚ := none
  market_cap_max : Option ℚ := none
deriving DecidableEq, Repr

/-- The row predicate enforced by `_apply_numeric_filter`: both boolean masks
(`numeric_col >= min_val` and `numeric_col <= max_val`) must hold; the two
masks are computed from the same pre-filter numeric column and conjoined by
the successive boolean indexings, and a NaN value fails either mask. -/
def numKeep (c : String) (minV maxV : Option ℚ) (r : Row) : Bool :=
  (match minV with
   | some m => (get_numeric_value r c).geb (.finite m)
   | none => true) &&
  (match maxV with
   | some m => (get_numeric_value r c).leb (.finite m)
   | none => true)

/-- `_apply_numeric_filter`: a no-op when the column is absent, otherwise
keep the rows passing both configured bounds. -/
def apply_numeric_filter (df : DataFrame) (c : String) (minV maxV : Option ℚ) :
    DataFrame :=
  if c ∈ df.cols then { df with rows := df.rows.filter (numKeep c minV maxV) }
  else df

/-- The derived 总市值_亿 cell: the 总市值 cell through `pd.to_numeric`
with errors=coerce, divided by 1e8. -/
def mcapYiCell (r : Row) : PyVal :=
  .pfloat ((get_numeric_value r "总市值").div1e8)

/-- The 总市值_亿 column-assignment step of `apply_filters`. -/
def addMcapYi (df : DataFrame) : DataFrame :=
  { cols := addColName df.cols "总市值_亿",
    rows := df.rows.map (fun r => rowSet r "总市值_亿" (mcapYiCell r)) }

/-- The ROE stage of `apply_filters`: only when `roe_min` is set, resolve the
ROE column through the alias list and, when found, apply the minimum bound. -/
def roeStage (df : DataFrame) (f : Filters) : DataFrame :=
  match f.roe_min with
  | some m =>
    match find_column df roeAliases with
    | some roeCol => apply_numeric_filter df roeCol (some m) none
    | none => df
  | none => df

/-- The market-cap stage of `apply_filters`: when the 总市值 column exists and
some market-cap bound is set, assign the derived 总市值_亿 column and filter
on it. -/
def mcapStage (df : DataFrame) (f : Filters) : DataFrame :=
  if "总市值" ∈ df.cols ∧ (f.market_cap_min.isSome ∨ f.market_cap_max.isSome) then
    apply_numeric_filter (addMcapYi df) "总市值_亿" f.market_cap_min f.market_cap_max
  else df

/-- `apply_filters` from `stock_screener.py`: PE, PB, alias-resolved ROE,
debt-ratio and market-cap stages in source order.  The initial `df.copy()`
only matters for aliasing and is accounted for in `screen`. -/
def apply_filters (df : DataFrame) (f : Filters) : DataFrame :=
  mcapStage
    (apply_numeric_filter
      (roeStage
        (apply_numeric_filter
          (apply_numeric_filter df "市盈率-动态" f.pe_min f.pe_max)
          "市净率" f.pb_min f.pb_max)
        f)
      "资产负债率" none f.debt_ratio_max)
    f

/-- Stable insertion of `a` before the first `b` with `le a b`. -/
def insSorted (le : Row → Row → Bool) (a : Row) : List Row → List Row
  | [] => [a]
  | b :: l => if le a b then a :: b :: l else b :: insSorted le a l

/-- Insertion sort (stable). -/
def sortedRows (le : Row → Row → Bool) (l : List Row) : List Row :=
  l.foldr (insSorted le) []

/-- Comparison used to model `sort_values` on a numeric column: `le a b`
holds when `a` may be placed before `b`.  NaN keys go last
(na_position last).  The pandas default sort kind (quicksort) fixes no
order among equal keys; this model chooses the stable one, and no theorem
below relies on the order of tie rows. -/
def sortLe (key : Row → PFloat) (ascending : Bool) (a b : Row) : Bool :=
  let ka := key a
  let kb := key b
  if ka.isNan then false
  else if kb.isNan then true
  else if ascending then !(kb.ltb ka) else !(ka.ltb kb)

/-- `df.sort_values(c, ascending=...)` on a numeric column. -/
def sort_values (df : DataFrame) (c : String) (ascending : Bool) : DataFrame :=
  { df with
    rows := sortedRows (sortLe (fun r => get_numeric_value r c) ascending) df.rows }

/-- `df.head(n)`; a negative `n` keeps all rows but the last `|n|`. -/
def DataFrame.headN (df : DataFrame) (n : ℤ) : DataFrame :=
  { df with
    rows :=
      if 0 ≤ n then df.rows.take n.toNat
      else df.rows.take (df.rows.length - n.natAbs) }

/-- The projected output record of `screen` (the fixed result schema). -/
structure OutRow where
  code : PyVal
  name : PyVal
  price : PyVal
  changePct : PyVal
  pe : PyVal
  pb : PyVal
  mcapYi : PyVal
  score : PyVal
deriving DecidableEq, Repr

/-- One result dict of the projection loop in `screen`.  The market-cap
field is the 总市值 cell through `float`, divided by 1e8 and rounded to two
places when the cell is truthy, and the empty string otherwise; `float` may
raise on a non-numeric cell, and that exception propagates. -/
def projectRow (r : Row) : Except String OutRow := do
  let mcap : PyVal ←
    if pyTruthy (rowGetD r "总市值" .pnone) then do
      let x ← pyFloat (rowGetD r "总市值" (.pint 0))
      pure (.pfloat (x.div1e8.round2))
    else
      pure (.pstr "")
  pure {
    code := rowGetD r "代码" (.pstr ""),
    name := rowGetD r "名称" (.pstr ""),
    price := rowGetD r "最新价" (.pstr ""),
    changePct := rowGetD r "涨跌幅" (.pstr ""),
    pe := rowGetD r "市盈率-动态" (.pstr ""),
    pb := rowGetD r "市净率" (.pstr ""),
    mcapYi := mcap,
    score := rowGetD r "评分" (.pint 50) }

/-- The `for _, row in df.iterrows()` projection loop: results are appended
in row order and the first exception aborts the whole loop. -/
def projectRows : List Row → Except String (List OutRow)
  | [] => .ok []
  | r :: t => do
    let o ← projectRow r
    let os ← projectRows t
    pure (o :: os)

/-- Outcomes of the akshare calls made during one run, supplied as the
environment: `spotEm` is the result of `ak.stock_zh_a_spot_em()` and
`indexCons` of `ak.index_stock_cons(symbol=...)` reduced to its 品种代码
column.  An `Except.error` records a raised exception (after the retry
decorator, which re-raises the last error, so only the final outcome
matters). -/
structure AkEnv where
  spotEm : Except String DataFrame
  indexCons : String → Except String (List String)

/-- `INDEX_CODE_MAP` from `stock_screener.py`. -/
def INDEX_CODE_MAP : List (String × String) :=
  [("hs300", "000300"), ("zz500", "000905"), ("zz1000", "000852"),
   ("cyb", "399006"), ("kcb", "000688")]

/-- `s.startswith(pre)`. -/
def strStartsWith (s pre : String) : Bool :=
  pre.toList.isPrefixOf s.toList

/-- Remove every non-overlapping occurrence of `pat` from `l`, left to right
(the fuel argument only bounds the recursion; it is set to the list length,
which suffices because every step consumes at least one character). -/
def removeAllAux (pat : List Char) : ℕ → List Char → List Char
  | 0, _ => []
  | _ + 1, [] => []
  | fuel + 1, c :: rest =>
    if pat.isPrefixOf (c :: rest) ∧ pat ≠ [] then
      removeAllAux pat fuel ((c :: rest).drop pat.length)
    else c :: removeAllAux pat fuel rest

/-- `s.replace(pat, "")` for a nonempty pattern. -/
def strRemoveAll (s pat : String) : String :=
  String.mk (removeAllAux pat.toList s.toList.length s.toList)

/-- `s.split(",")` on character lists. -/
def splitCommaChars : List Char → List (List Char)
  | [] => [[]]
  | c :: rest =>
    if c = ',' then [] :: splitCommaChars rest
    else
      match splitCommaChars rest with
      | h :: t => (c :: h) :: t
      | [] => [[c]]

/-- `s.split(",")`. -/
def strSplitComma (s : String) : List String :=
  (splitCommaChars s.toList).map String.mk

/-- The isin restriction of the spot frame to the rows whose 代码 cell is
in the code list. -/
def filterByCodes (df : DataFrame) (codes : List String) : DataFrame :=
  { df with
    rows := df.rows.filter (fun r =>
      match rowGet r "代码" with
      | some (.pstr c) => codes.contains c
      | _ => false) }

/-- `_get_index_stocks_data`: fetch constituents then spot data and restrict;
its `try/except` turns any failure into an empty frame. -/
def getIndexStocksData (env : AkEnv) (indexCode : String) : DataFrame :=
  match env.indexCons indexCode with
  | .error _ => DataFrame.emptyDf
  | .ok codes =>
    match env.spotEm with
    | .error _ => DataFrame.emptyDf
    | .ok allStocks => filterByCodes allStocks codes

/-- `_get_custom_stocks_data`. -/
def getCustomStocksData (env : AkEnv) (codes : List String) : DataFrame :=
  match env.spotEm with
  | .error _ => DataFrame.emptyDf
  | .ok allStocks => filterByCodes allStocks codes

/-- `load_stock_data`.  The empty `customCodes` list plays the Python `None`
(matching the truthiness tests `custom_codes or ...` in the source).  An
unknown scope keyword falls into the final `else`, which fetches the entire
market; any exception from the direct spot fetch is caught by the outer
`try/except` and yields an empty frame. -/
def load_stock_data (env : AkEnv) (scope : String) (customCodes : List String) :
    DataFrame :=
  if scope = "all" then
    match env.spotEm with
    | .ok df => df
    | .error _ => DataFrame.emptyDf
  else
    match INDEX_CODE_MAP.lookup scope with
    | some code => getIndexStocksData env code
    | none =>
      if strStartsWith scope "custom:" || !customCodes.isEmpty then
        let codes :=
          if customCodes.isEmpty then strSplitComma (strRemoveAll scope "custom:")
          else customCodes
        getCustomStocksData env codes
      else
        match env.spotEm with
        | .ok df => df
        | .error _ => DataFrame.emptyDf

/-- The 评分 column assignment: `df.apply(self.calculate_score, axis=1)`. -/
def addScore (df : DataFrame) : DataFrame :=
  { cols := addColName df.cols "评分",
    rows := df.rows.map (fun r => rowSet r "评分" (.pint (calculate_score r))) }

/-- The sort dispatch of `screen` (the 评分 column always exists at this
point, having just been assigned). -/
def sortStep (df : DataFrame) (sortBy : String) : DataFrame :=
  if sortBy = "score" then sort_values df "评分" false
  else if sortBy = "pe" then
    if "市盈率-动态" ∈ df.cols then sort_values df "市盈率-动态" true else df
  else if sortBy = "pb" then
    if "市净率" ∈ df.cols then sort_values df "市净率" true else df
  else if sortBy = "market_cap" then
    if "总市值" ∈ df.cols then sort_values df "总市值" false else df
  else df

/-- `if top_n: df = df.head(top_n)` — `None` and `0` are both falsy and skip
truncation; any nonzero integer truncates via `head`. -/
def truncTopN (topN : Option ℤ) (df : DataFrame) : DataFrame :=
  match topN with
  | some n => if n ≠ 0 then df.headN n else df
  | none => df

/-- Sort, truncate and project — the tail of `screen` after scoring. -/
def rankProject (df : DataFrame) (sortBy : String) (topN : Option ℤ) :
    Except String (List OutRow) :=
  projectRows (truncTopN topN (sortStep df sortBy)).rows

/-- The dataset `screen` loads for a scope token. -/
def screenLoad (env : AkEnv) (scope : String) : DataFrame :=
  if strStartsWith scope "custom:" then
    load_stock_data env "custom" (strSplitComma (strRemoveAll scope "custom:"))
  else
    load_stock_data env scope []

/-- `screen` from `stock_screener.py`.  The first component is the returned
result list, or the exception escaping the projection loop.  The second
component is the final value of `self.all_stocks_data`: `load_stock_data`
stores the loaded frame in that field and returns it, so the local `df`
aliases the canonical frame; `apply_filters` starts from `df.copy()` and
breaks the alias, but on the no-filter path (`filters` None or empty, both
modelled by `none`) the 评分 score-column assignment mutates
the canonical frame in place. -/
def screen (env : AkEnv) (scope : String) (filters : Option Filters)
    (sortBy : String) (topN : Option ℤ) :
    Except String (List OutRow) × DataFrame :=
  let df := screenLoad env scope
  if df.isEmptyDf then (.ok [], df)
  else
    match filters with
    | some f =>
      let df1 := apply_filters df f
      if df1.isEmptyDf then (.ok [], df)
      else (rankProject (addScore df1) sortBy topN, df)
    | none =>
      let df2 := addScore df
      (rankProject df2 sortBy topN, df2)

/-! ### Basic lemmas about rows, filters and the pipeline stages -/

theorem rowGet_rowSet_ne (r : Row) (c c' : String) (v : PyVal) (h : c' ≠ c) :
    rowGet (rowSet r c v) c' = rowGet r c' := by
  have hcc : ¬ c = c' := fun hcc => h hcc.symm
  induction r with
  | nil => simp [rowSet, rowGet, hcc]
  | cons p t ih =>
    by_cases hp : p.1 = c
    · simp [rowSet, rowGet, hp, hcc]
    · simp only [rowSet, if_neg hp, rowGet]
      by_cases hp' : p.1 = c'
      · simp [hp']
      · simp [hp', ih]

theorem rowGet_rowSet_eq (r : Row) (c : String) (v : PyVal) :
    rowGet (rowSet r c v) c = some v := by
  induction r with
  | nil => simp [rowSet, rowGet]
  | cons p t ih =>
    by_cases hp : p.1 = c
    · simp [rowSet, hp, rowGet]
    · simp [rowSet, hp, rowGet, ih]

theorem get_numeric_value_rowSet_ne (r : Row) (c c' : String) (v : PyVal)
    (h : c' ≠ c) :
    get_numeric_value (rowSet r c v) c' = get_numeric_value r c' := by
  unfold get_numeric_value rowGetD
  rw [rowGet_rowSet_ne r c c' v h]

theorem anf_cols (df : DataFrame) (c : String) (mi ma : Option ℚ) :
    (apply_numeric_filter df c mi ma).cols = df.cols := by
  unfold apply_numeric_filter
  split <;> rfl

theorem mem_anf {df : DataFrame} {c : String} {mi ma : Option ℚ} {r : Row}
    (h : r ∈ (apply_numeric_filter df c mi ma).rows) : r ∈ df.rows := by
  unfold apply_numeric_filter at h
  split at h
  · exact (List.mem_filter.mp h).1
  · exact h

theorem keep_of_mem_anf {df : DataFrame} {c : String} {mi ma : Option ℚ}
    {r : Row} (hc : c ∈ df.cols)
    (h : r ∈ (apply_numeric_filter df c mi ma).rows) :
    numKeep c mi ma r = true := by
  unfold apply_numeric_filter at h
  rw [if_pos hc] at h
  exact (List.mem_filter.mp h).2

theorem PFloat.leb_nan (a : PFloat) : a.leb .nan = false := by
  cases a <;> rfl

/-- The per-constraint invariant of a surviving row: when some bound is
configured, the normalized value is a non-missing number inside the inclusive
bounds. -/
def constraintOk (v : PFloat) (minV maxV : Option ℚ) : Prop :=
  (minV.isSome ∨ maxV.isSome) →
    v.isNan = false
    ∧ (∀ m, minV = some m → (PFloat.finite m).leb v = true)
    ∧ (∀ m, maxV = some m → v.leb (.finite m) = true)

theorem constraintOk_of_numKeep {c : String} {mi ma : Option ℚ} {r : Row}
    (h : numKeep c mi ma r = true) :
    constraintOk (get_numeric_value r c) mi ma := by
  unfold numKeep at h
  rw [Bool.and_eq_true] at h
  obtain ⟨h1, h2⟩ := h
  intro hB
  have hnan : (get_numeric_value r c).isNan = false := by
    rcases hB with hB | hB
    · obtain ⟨m, hm⟩ := Option.isSome_iff_exists.mp hB
      rw [hm] at h1
      cases hv : get_numeric_value r c with
      | nan => rw [hv] at h1; simp [PFloat.geb, PFloat.leb_nan] at h1
      | finite q => rfl
      | inf b => rfl
    · obtain ⟨m, hm⟩ := Option.isSome_iff_exists.mp hB
      rw [hm] at h2
      cases hv : get_numeric_value r c with
      | nan => rw [hv] at h2; simp [PFloat.leb] at h2
      | finite q => rfl
      | inf b => rfl
  refine ⟨hnan, ?_, ?_⟩
  · intro m hm
    rw [hm] at h1
    exact h1
  · intro m hm
    rw [hm] at h2
    exact h2

theorem find_column_mem {df : DataFrame} {cands : List String} {c : String}
    (h : find_column df cands = some c) : c ∈ df.cols ∧ c ∈ cands := by
  unfold find_column findColumnIn at h
  have hmem := List.mem_of_find?_eq_some h
  have hp := List.find?_some h
  rw [decide_eq_true_eq] at hp
  refine ⟨?_, hmem⟩
  obtain ⟨x, hx, hxe⟩ := List.mem_map.mp hp
  cases hxe
  exact hx

theorem find_column_congr {df df' : DataFrame} (cands : List String)
    (h : df.cols = df'.cols) : find_column df cands = find_column df' cands := by
  unfold find_column
  rw [h]

theorem roeStage_cols (df : DataFrame) (f : Filters) :
    (roeStage df f).cols = df.cols := by
  unfold roeStage
  cases f.roe_min with
  | none => rfl
  | some m =>
    cases find_column df roeAliases with
    | none => rfl
    | some c => exact anf_cols df c (some m) none

theorem mem_roeStage {df : DataFrame} {f : Filters} {r : Row}
    (h : r ∈ (roeStage df f).rows) : r ∈ df.rows := by
  unfold roeStage at h
  rcases hm : f.roe_min with _ | m
  · rw [hm] at h; exact h
  · rw [hm] at h
    rcases hf : find_column df roeAliases with _ | c
    · rw [hf] at h; exact h
    · rw [hf] at h; exact mem_anf h

theorem roeStage_keep {df : DataFrame} {f : Filters} {r : Row} {m : ℚ}
    {c : String} (hm : f.roe_min = some m)
    (hc : find_column df roeAliases = some c)
    (h : r ∈ (roeStage df f).rows) : numKeep c (some m) none r = true := by
  unfold roeStage at h
  rw [hm, hc] at h
  exact keep_of_mem_anf (find_column_mem hc).1 h

theorem mcapYi_mem_addColName (cols : List String) :
    "总市值_亿" ∈ addColName cols "总市值_亿" := by
  unfold addColName
  split
  · assumption
  · simp

theorem mcapStage_cases {df : DataFrame} {f : Filters} {r : Row}
    (h : r ∈ (mcapStage df f).rows) :
    (¬("总市值" ∈ df.cols ∧ (f.market_cap_min.isSome ∨ f.market_cap_max.isSome))
      ∧ r ∈ df.rows)
    ∨ (∃ r0, r0 ∈ df.rows ∧ r = rowSet r0 "总市值_亿" (mcapYiCell r0)
        ∧ numKeep "总市值_亿" f.market_cap_min f.market_cap_max r = true) := by
  unfold mcapStage at h
  split at h
  · right
    have hmem := mem_anf h
    have hkeep := keep_of_mem_anf (c := "总市值_亿")
      (mcapYi_mem_addColName df.cols) h
    obtain ⟨r0, hr0, hre⟩ := List.mem_map.mp hmem
    exact ⟨r0, hr0, hre.symm, hkeep⟩
  · rename_i hno
    exact Or.inl ⟨hno, h⟩

theorem preMc_facts (df : DataFrame) (f : Filters) (r : Row)
    (hr : r ∈ (apply_numeric_filter
      (roeStage
        (apply_numeric_filter
          (apply_numeric_filter df "市盈率-动态" f.pe_min f.pe_max)
          "市净率" f.pb_min f.pb_max)
        f)
      "资产负债率" none f.debt_ratio_max).rows) :
    ("市盈率-动态" ∈ df.cols →
      constraintOk (get_numeric_value r "市盈率-动态") f.pe_min f.pe_max)
    ∧ ("市净率" ∈ df.cols →
      constraintOk (get_numeric_value r "市净率") f.pb_min f.pb_max)
    ∧ (∀ c, find_column df roeAliases = some c →
      constraintOk (get_numeric_value r c) f.roe_min none)
    ∧ ("资产负债率" ∈ df.cols →
      constraintOk (get_numeric_value r "资产负债率") none f.debt_ratio_max) := by
  set D1 := apply_numeric_filter df "市盈率-动态" f.pe_min f.pe_max with hD1
  set D2 := apply_numeric_filter D1 "市净率" f.pb_min f.pb_max with hD2
  set D3 := roeStage D2 f with hD3
  have hc1 : D1.cols = df.cols := by rw [hD1, anf_cols]
  have hc2 : D2.cols = df.cols := by rw [hD2, anf_cols, hc1]
  have hc3 : D3.cols = df.cols := by rw [hD3, roeStage_cols, hc2]
  have hr3 : r ∈ D3.rows := mem_anf hr
  have hr2 : r ∈ D2.rows := mem_roeStage hr3
  have hr1 : r ∈ D1.rows := mem_anf hr2
  refine ⟨?_, ?_, ?_, ?_⟩
  · intro hm
    exact constraintOk_of_numKeep (keep_of_mem_anf hm hr1)
  · intro hm
    have hm' : "市净率" ∈ D1.cols := by rw [hc1]; exact hm
    exact constraintOk_of_numKeep (keep_of_mem_anf hm' hr2)
  · intro c hfc
    rcases hroe : f.roe_min with _ | m
    · intro hB
      simp at hB
    · have hfc2 : find_column D2 roeAliases = some c := by
        rw [find_column_congr roeAliases hc2]
        exact hfc
      have hkeep := roeStage_keep hroe hfc2 hr3
      exact constraintOk_of_numKeep hkeep
  · intro hm
    have hm' : "资产负债率" ∈ D3.cols := by rw [hc3]; exact hm
    exact constraintOk_of_numKeep (keep_of_mem_anf hm' hr)

/-- C4: every row surviving the filter pipeline satisfies, for each
configured constraint whose target column exists in the dataset, that its
normalized value in that column is a non-missing number inside the inclusive
bounds (with the internal 1e8 unit conversion for the market-cap
constraint); in particular a row whose value normalizes to missing is
excluded by any such constraint with a bound set, and a constraint whose
column is absent (or whose bounds are unset) excludes nothing. -/
theorem c4_filter_invariant (df : DataFrame) (f : Filters) (r : Row)
    (hr : r ∈ (apply_filters df f).rows) :
    ("市盈率-动态" ∈ df.cols →
      constraintOk (get_numeric_value r "市盈率-动态") f.pe_min f.pe_max)
    ∧ ("市净率" ∈ df.cols →
      constraintOk (get_numeric_value r "市净率") f.pb_min f.pb_max)
    ∧ (∀ c, find_column df roeAliases = some c →
      constraintOk (get_numeric_value r c) f.roe_min none)
    ∧ ("资产负债率" ∈ df.cols →
      constraintOk (get_numeric_value r "资产负债率") none f.debt_ratio_max)
    ∧ ("总市值" ∈ df.cols →
      constraintOk ((get_numeric_value r "总市值").div1e8)
        f.market_cap_min f.market_cap_max) := by
  unfold apply_filters at hr
  rcases mcapStage_cases hr with ⟨hno, hr4⟩ | ⟨r0, hr0, hre, hkeep⟩
  · obtain ⟨p1, p2, p3, p4⟩ := preMc_facts df f r hr4
    refine ⟨p1, p2, p3, p4, ?_⟩
    intro hmem hB
    exfalso
    apply hno
    refine ⟨?_, hB⟩
    rw [anf_cols, roeStage_cols, anf_cols, anf_cols]
    exact hmem
  · obtain ⟨p1, p2, p3, p4⟩ := preMc_facts df f r0 hr0
    have hg : ∀ c', c' ≠ "总市值_亿" →
        get_numeric_value r c' = get_numeric_value r0 c' := by
      intro c' hne
      rw [hre]
      exact get_numeric_value_rowSet_ne r0 "总市值_亿" c' (mcapYiCell r0) hne
    refine ⟨?_, ?_, ?_, ?_, ?_⟩
    · intro hm; rw [hg _ (by decide)]; exact p1 hm
    · intro hm; rw [hg _ (by decide)]; exact p2 hm
    · intro c hfc
      have hcands := (find_column_mem hfc).2
      have hne : c ≠ "总市值_亿" := by
        simp only [roeAliases, List.mem_cons, List.not_mem_nil, or_false] at hcands
        rcases hcands with rfl | rfl | rfl <;> decide
      rw [hg c hne]
      exact p3 c hfc
    · intro hm; rw [hg _ (by decide)]; exact p4 hm
    · intro _
      have h1 : get_numeric_value r "总市值_亿"
          = (get_numeric_value r0 "总市值").div1e8 := by
        unfold get_numeric_value rowGetD
        rw [hre, rowGet_rowSet_eq]
        rfl
      have h2 := constraintOk_of_numKeep hkeep
      rw [h1] at h2
      rw [hg _ (by decide)]
      exact h2

/-! ### Concrete datasets used as witnesses and counterexamples -/

/-- Record A of the worked example in the spec: PE 8, PB 1.0, ROE 22,
change −3, with the ROE under the first known alias. -/
def rowA : Row :=
  [("代码", .pstr "A"), ("市盈率-动态", .pfloat (.finite 8)),
   ("市净率", .pfloat (.finite 1)), ("净资产收益率", .pfloat (.finite 22)),
   ("涨跌幅", .pfloat (.finite (-3)))]

/-- Record B of the worked example: PE 60, PB 6, ROE 4, change 2. -/
def rowB : Row :=
  [("代码", .pstr "B"), ("市盈率-动态", .pfloat (.finite 60)),
   ("市净率", .pfloat (.finite 6)), ("净资产收益率", .pfloat (.finite 4)),
   ("涨跌幅", .pfloat (.finite 2))]

/-- The two-row dataset of the worked example. -/
def dfAB : DataFrame :=
  ⟨["代码", "市盈率-动态", "市净率", "净资产收益率", "涨跌幅"], [rowA, rowB]⟩

/-- Environment whose full-market fetch succeeds with `dfAB`. -/
def envAB : AkEnv := ⟨.ok dfAB, fun _ => .error "unused"⟩

/-- A row whose total-market-cap cell holds the placeholder `"--"`. -/
def rowM1 : Row := [("代码", .pstr "X"), ("总市值", .pstr "--")]

/-- A well-formed companion row with a numeric total market cap. -/
def rowM2 : Row := [("代码", .pstr "Y"), ("总市值", .pint 200000000)]

/-- A dataset with a single malformed total-market-cap cell. -/
def dfMal : DataFrame := ⟨["代码", "总市值"], [rowM1, rowM2]⟩

/-- Environment whose full-market fetch succeeds with `dfMal`. -/
def envMal : AkEnv := ⟨.ok dfMal, fun _ => .error "unused"⟩

/-- Three-row dataset with pairwise distinct scores (65, 60, 55). -/
def rowP1 : Row := [("代码", .pstr "A"), ("市盈率-动态", .pfloat (.finite 8))]

def rowP2 : Row := [("代码", .pstr "B"), ("市盈率-动态", .pfloat (.finite 12))]

def rowP3 : Row := [("代码", .pstr "C"), ("市盈率-动态", .pfloat (.finite 18))]

def dfP : DataFrame := ⟨["代码", "市盈率-动态"], [rowP1, rowP2, rowP3]⟩

/-- Environment whose full-market fetch succeeds with `dfP`. -/
def envP : AkEnv := ⟨.ok dfP, fun _ => .error "unused"⟩

/-- A dataset with no ROE-like column. -/
def dfNoRoe : DataFrame := ⟨["代码", "市盈率-动态"], [rowP1, rowP2]⟩

/-- Environment whose full-market fetch raises. -/
def envErr : AkEnv := ⟨.error "boom", fun _ => .error "boom"⟩

/-! ### The claims -/

/-- C1: on the two-row example dataset the code does not produce the
specified scores 93 and 30: the ROE rule of `calculate_score` never fires
(because `_find_column` is called on `row.index.to_frame()`, whose single
column label is the integer 0, never an ROE alias), so A scores 78 and B
scores 35.  The `{pe_max: 20}` filter does retain only A. -/
theorem c1_score_eval :
    calculate_score rowA = 78 ∧ calculate_score rowB = 35 ∧
    (apply_filters dfAB { pe_max := some 20 }).rows = [rowA] := by
  exact ⟨by decide, by decide, by decide⟩

/-- C2: a single `"--"` placeholder in the 总市值 column of one row makes
`screen` raise `ValueError` (from `float("--")` in the output projection),
aborting the whole screen instead of degrading to an empty output field. -/
theorem c2_screen_raises :
    (screen envMal "all" none "score" none).1 = .error "ValueError" := by rfl

/-- C8: the composite score is clamped into the closed interval [0, 100] for
every record, whatever values (missing, non-numeric, extreme) its cells
hold. -/
theorem c8_score_bounds (r : Row) :
    0 ≤ calculate_score r ∧ calculate_score r ≤ 100 := by
  unfold calculate_score
  exact ⟨le_max_left 0 _, max_le (by norm_num) (min_le_left 100 _)⟩

theorem anf_no_bounds (df : DataFrame) (c : String) :
    apply_numeric_filter df c none none = df := by
  unfold apply_numeric_filter
  split
  · have hfilter : ∀ l : List Row, l.filter (numKeep c none none) = l := by
      intro l
      induction l with
      | nil => rfl
      | cons a t ih => simp [List.filter, numKeep, ih]
    rw [hfilter]
  · rfl

/-- C7: a filter spec holding only a minimum-ROE bound leaves a dataset with
no ROE-like column entirely unchanged (vacuous pass), rather than excluding
rows. -/
theorem c7_roe_vacuous (df : DataFrame) (m : ℚ)
    (h : find_column df roeAliases = none) :
    apply_filters df { roe_min := some m } = df := by
  have hroe : roeStage df { roe_min := some m } = df := by
    unfold roeStage
    rw [h]
  show mcapStage
      (apply_numeric_filter
        (roeStage
          (apply_numeric_filter
            (apply_numeric_filter df "市盈率-动态" none none)
            "市净率" none none)
          { roe_min := some m })
        "资产负债率" none none)
      { roe_min := some m } = df
  simp only [anf_no_bounds]
  rw [hroe]
  unfold mcapStage
  simp

/-- Witness for C7 at a concrete dataset without any ROE alias column. -/
theorem c7_roe_vacuous_witness :
    apply_filters dfNoRoe { roe_min := some 10 } = dfNoRoe :=
  c7_roe_vacuous dfNoRoe 10 (by decide)

/-- C3 counterexample: the unknown scope token "foo" does not resolve to
zero rows — `load_stock_data` falls through to the entire-market fetch, and
the pipeline returns the two loaded rows, not an empty result. -/
theorem c3_counterexample :
    load_stock_data envAB "foo" [] = dfAB
    ∧ Except.map List.length (screen envAB "foo" none "score" none).1
      = .ok 2 :=
  ⟨rfl, rfl⟩

/-- C3 amended: a scope token that is not the entire-market keyword, not a
known index short-name and not a custom-code token falls back to the
entire-market fetch; the pipeline returns an empty result set with a zero
count exactly when the acquisition fails or yields an empty dataset (and
then it is a normal empty return, not an error). -/
theorem c3_amended (env : AkEnv) (scope : String) (h1 : scope ≠ "all")
    (h2 : INDEX_CODE_MAP.lookup scope = none)
    (h3 : strStartsWith scope "custom:" = false) :
    load_stock_data env scope []
      = (match env.spotEm with
         | .ok df => df
         | .error _ => DataFrame.emptyDf)
    ∧ (∀ e, env.spotEm = .error e →
        ∀ fl sb tn, (screen env scope fl sb tn).1 = .ok [])
    ∧ (env.spotEm = .ok DataFrame.emptyDf →
        ∀ fl sb tn, (screen env scope fl sb tn).1 = .ok []) := by
  have hload : load_stock_data env scope []
      = (match env.spotEm with
         | .ok df => df
         | .error _ => DataFrame.emptyDf) := by
    unfold load_stock_data
    rw [if_neg h1, h2]
    simp [h3]
  have hsl : screenLoad env scope = load_stock_data env scope [] := by
    unfold screenLoad
    simp [h3]
  refine ⟨hload, ?_, ?_⟩
  · intro e he fl sb tn
    have hempty : screenLoad env scope = DataFrame.emptyDf := by
      rw [hsl, hload, he]
    simp only [screen, hempty]
    rfl
  · intro he fl sb tn
    have hempty : screenLoad env scope = DataFrame.emptyDf := by
      rw [hsl, hload, he]
    simp only [screen, hempty]
    rfl

/-- Witness for C3 amended: with a failing acquisition, the unknown scope
token "foo" yields the empty frame and a zero-count result. -/
theorem c3_amended_witness :
    load_stock_data envErr "foo" []
      = (match envErr.spotEm with
         | .ok df => df
         | .error _ => DataFrame.emptyDf)
    ∧ (screen envErr "foo" none "score" none).1 = .ok [] := by
  obtain ⟨a, b, _⟩ := c3_amended envErr "foo" (by decide) rfl rfl
  exact ⟨a, b "boom" rfl none "score" none⟩

/-- Witness for C4 at the example dataset under the pe-max 20 filter, for
the surviving row A. -/
theorem c4_filter_invariant_witness :
    ("市盈率-动态" ∈ dfAB.cols →
      constraintOk (get_numeric_value rowA "市盈率-动态") none (some 20))
    ∧ ("市净率" ∈ dfAB.cols →
      constraintOk (get_numeric_value rowA "市净率") none none)
    ∧ (∀ c, find_column dfAB roeAliases = some c →
      constraintOk (get_numeric_value rowA c) none none)
    ∧ ("资产负债率" ∈ dfAB.cols →
      constraintOk (get_numeric_value rowA "资产负债率") none none)
    ∧ ("总市值" ∈ dfAB.cols →
      constraintOk ((get_numeric_value rowA "总市值").div1e8) none none) :=
  c4_filter_invariant dfAB { pe_max := some 20 } rowA (by decide)

/-- C6 counterexample: `safe_float` applied to the text "nan" returns the
float NaN — a non-finite float, not the missing marker. -/
theorem c6_counterexample :
    safe_float (.pstr "nan") = some PFloat.nan
    ∧ PFloat.nan.isFinite = false :=
  ⟨rfl, rfl⟩

/-- C6 amended: `safe_float` never raises and always returns a float or the
missing marker; an input that already is the NaN float (or None) maps to the
missing marker, but a non-finite float can still be returned — exactly when
the input is a string whose de-noised text parses to NaN or an infinity, or
the input is itself a (non-NaN) infinite float. -/
theorem c6_amended :
    safe_float (.pfloat PFloat.nan) = none
    ∧ safe_float .pnone = none
    ∧ ∀ v x, safe_float v = some x → x.isFinite = false →
        (∃ s, v = PyVal.pstr s ∧ pyFloatOfString (stripNumNoise s) = some x)
        ∨ (∃ y, v = PyVal.pfloat y ∧ y = x ∧ x.isNan = false) := by
  refine ⟨rfl, rfl, ?_⟩
  intro v x h hx
  cases v with
  | pnone => simp [safe_float] at h
  | pint n =>
    have hq : safe_float (.pint n) = some (.finite n) := rfl
    rw [hq] at h
    rw [← Option.some.inj h] at hx
    simp [PFloat.isFinite] at hx
  | pfloat y =>
    cases y with
    | nan => simp [safe_float, pdIsna] at h
    | finite q =>
      have hq : safe_float (.pfloat (.finite q)) = some (.finite q) := rfl
      rw [hq] at h
      rw [← Option.some.inj h] at hx
      simp [PFloat.isFinite] at hx
    | inf b =>
      have hq : safe_float (.pfloat (.inf b)) = some (.inf b) := rfl
      rw [hq] at h
      have hxe := Option.some.inj h
      right
      refine ⟨.inf b, rfl, hxe, ?_⟩
      rw [← hxe]
      rfl
  | pstr s =>
    by_cases hs : (PyVal.pstr s = PyVal.pnone ∨ PyVal.pstr s = PyVal.pstr ""
        ∨ PyVal.pstr s = PyVal.pstr "--")
    · unfold safe_float at h
      rw [if_pos hs] at h
      cases h
    · unfold safe_float at h
      rw [if_neg hs] at h
      have hna : pdIsna (PyVal.pstr s) = false := rfl
      rw [hna] at h
      simp only [Bool.false_eq_true, if_false] at h
      left
      refine ⟨s, rfl, ?_⟩
      cases hp : pyFloatOfString (stripNumNoise s) with
      | none => rw [hp] at h; cases h
      | some x' => rw [hp] at h; exact h

/-- Witness for C6 amended at the string "inf", whose parse is the positive
infinity. -/
theorem c6_amended_witness :
    (∃ s, PyVal.pstr "inf" = PyVal.pstr s
      ∧ pyFloatOfString (stripNumNoise s) = some (PFloat.inf false))
    ∨ (∃ y, PyVal.pstr "inf" = PyVal.pfloat y ∧ y = PFloat.inf false
      ∧ (PFloat.inf false).isNan = false) :=
  c6_amended.2.2 (.pstr "inf") (.inf false) rfl rfl

/-- C9 counterexample: on a no-filter run the canonical loaded frame is
mutated in place — after the run it carries the 评分 score column that the
loaded dataset did not have, so it is not identical before and after. -/
theorem c9_counterexample :
    (screen envAB "all" none "score" none).2 ≠ screenLoad envAB "all"
    ∧ "评分" ∈ (screen envAB "all" none "score" none).2.cols
    ∧ "评分" ∉ (screenLoad envAB "all").cols :=
  ⟨by decide, by decide, by decide⟩

/-- C9 amended: with a (truthy) filter spec the canonical loaded frame is
left untouched by the pipeline (`apply_filters` starts from a copy); without
one, the score-column assignment mutates the canonical frame in place, but
only by adding the 评分 column — every cell under any other column name is
unchanged row by row. -/
theorem c9_amended (env : AkEnv) (scope : String) (f : Filters) (sb : String)
    (tn : Option ℤ) :
    (screen env scope (some f) sb tn).2 = screenLoad env scope
    ∧ ∀ (i : ℕ) (c : String), c ≠ "评分" →
        ((screen env scope none sb tn).2.rows[i]?.bind (fun r => rowGet r c))
          = ((screenLoad env scope).rows[i]?.bind (fun r => rowGet r c)) := by
  have hs : screen env scope (some f) sb tn
      = (if (screenLoad env scope).isEmptyDf then
           (Except.ok [], screenLoad env scope)
         else if (apply_filters (screenLoad env scope) f).isEmptyDf then
           (Except.ok [], screenLoad env scope)
         else
           (rankProject (addScore (apply_filters (screenLoad env scope) f)) sb tn,
            screenLoad env scope)) := rfl
  have hn : screen env scope none sb tn
      = (if (screenLoad env scope).isEmptyDf then
           (Except.ok [], screenLoad env scope)
         else
           (rankProject (addScore (screenLoad env scope)) sb tn,
            addScore (screenLoad env scope))) := rfl
  constructor
  · rw [hs]
    split_ifs <;> rfl
  · intro i c hc
    rw [hn]
    split_ifs with h1
    · rfl
    · show ((addScore (screenLoad env scope)).rows[i]?.bind fun r => rowGet r c)
        = ((screenLoad env scope).rows[i]?.bind fun r => rowGet r c)
      unfold addScore
      rw [List.getElem?_map]
      cases hrow : (screenLoad env scope).rows[i]? with
      | none => rfl
      | some r =>
        simp only [Option.map_some', Option.bind_some]
        exact rowGet_rowSet_ne r "评分" c (.pint (calculate_score r)) hc

/-- Witness for C9 amended: concrete runs over the example dataset, with a
filter spec (canonical unchanged) and the code cell of the first row on a
no-filter run (cells of other columns unchanged). -/
theorem c9_amended_witness :
    (screen envAB "all" (some { pe_max := some 20 }) "score" none).2
      = screenLoad envAB "all"
    ∧ ((screen envAB "all" none "score" none).2.rows[0]?.bind
        (fun r => rowGet r "代码"))
      = ((screenLoad envAB "all").rows[0]?.bind (fun r => rowGet r "代码")) := by
  obtain ⟨a, b⟩ := c9_amended envAB "all" { pe_max := some 20 } "score" none
  exact ⟨a, b 0 "代码" (by decide)⟩

theorem projectRows_ok_length {l : List Row} {rs : List OutRow}
    (h : projectRows l = .ok rs) : rs.length = l.length := by
  induction l generalizing rs with
  | nil =>
    have h' : Except.ok (ε := String) ([] : List OutRow) = .ok rs := h
    cases h'
    rfl
  | cons r t ih =>
    unfold projectRows at h
    cases hp : projectRow r with
    | error e => rw [hp] at h; exact Except.noConfusion h
    | ok o =>
      rw [hp] at h
      cases ht : projectRows t with
      | error e => rw [ht] at h; exact Except.noConfusion h
      | ok os =>
        rw [ht] at h
        have h' : Except.ok (ε := String) (o :: os) = .ok rs := h
        cases h'
        simp [ih ht]

theorem projectRows_take {l : List Row} {rs : List OutRow}
    (h : projectRows l = .ok rs) :
    ∀ k : ℕ, projectRows (l.take k) = .ok (rs.take k) := by
  induction l generalizing rs with
  | nil =>
    intro k
    have h' : Except.ok (ε := String) ([] : List OutRow) = .ok rs := h
    cases h'
    simp [projectRows]
  | cons r t ih =>
    intro k
    unfold projectRows at h
    cases hp : projectRow r with
    | error e => rw [hp] at h; exact Except.noConfusion h
    | ok o =>
      rw [hp] at h
      cases ht : projectRows t with
      | error e => rw [ht] at h; exact Except.noConfusion h
      | ok os =>
        rw [ht] at h
        have h' : Except.ok (ε := String) (o :: os) = .ok rs := h
        cases h'
        cases k with
        | zero => rfl
        | succ k =>
          show projectRows (r :: t.take k) = .ok (o :: os.take k)
          unfold projectRows
          rw [hp, ih ht k]
          rfl

theorem rankProject_trunc {df : DataFrame} {sb : String} {rs : List OutRow}
    (h : rankProject df sb none = .ok rs) :
    rankProject df sb (some 0) = .ok rs
    ∧ (∀ n : ℤ, 0 < n → rankProject df sb (some n) = .ok (rs.take n.toNat))
    ∧ (∀ n : ℤ, n < 0 →
        rankProject df sb (some n)
          = .ok (rs.take (rs.length - n.natAbs))) := by
  have h0 : projectRows (sortStep df sb).rows = .ok rs := h
  refine ⟨?_, ?_, ?_⟩
  · show projectRows (truncTopN (some 0) (sortStep df sb)).rows = .ok rs
    have ht : truncTopN (some 0) (sortStep df sb) = sortStep df sb := by
      unfold truncTopN
      simp
    rw [ht]
    exact h0
  · intro n hn
    have hne : n ≠ 0 := by omega
    show projectRows
        (if n ≠ 0 then DataFrame.headN (sortStep df sb) n
         else sortStep df sb).rows = Except.ok (rs.take n.toNat)
    rw [if_pos hne]
    show projectRows
        (if (0:ℤ) ≤ n then (sortStep df sb).rows.take n.toNat
         else (sortStep df sb).rows.take
           ((sortStep df sb).rows.length - n.natAbs))
      = Except.ok (rs.take n.toNat)
    rw [if_pos (le_of_lt hn)]
    exact projectRows_take h0 n.toNat
  · intro n hn
    have hne : n ≠ 0 := by omega
    show projectRows
        (if n ≠ 0 then DataFrame.headN (sortStep df sb) n
         else sortStep df sb).rows = Except.ok (rs.take (rs.length - n.natAbs))
    rw [if_pos hne]
    show projectRows
        (if (0:ℤ) ≤ n then (sortStep df sb).rows.take n.toNat
         else (sortStep df sb).rows.take
           ((sortStep df sb).rows.length - n.natAbs))
      = Except.ok (rs.take (rs.length - n.natAbs))
    rw [if_neg (by omega : ¬ (0:ℤ) ≤ n)]
    have hlen := projectRows_ok_length h0
    rw [← hlen]
    exact projectRows_take h0 (rs.length - n.natAbs)

/-- C10 counterexample: `top_n = -1` is truthy and does truncate — on the
three-row dataset it returns two rows, so truncation is not applied only for
positive values. -/
theorem c10_counterexample :
    Except.map List.length (screen envP "all" none "score" (some (-1))).1
      = .ok 2
    ∧ Except.map List.length (screen envP "all" none "score" none).1
      = .ok 3 :=
  ⟨rfl, rfl⟩

/-- C10 amended: truncation is applied for every truthy (nonzero) `top_n`:
`top_n = 0` behaves exactly like `None` (all surviving rows); a positive `n`
returns exactly the first `n` rows of the sorted set; a negative `n`
truncates too, keeping all but the last `|n|` rows. -/
theorem c10_amended (env : AkEnv) (scope : String) (fl : Option Filters)
    (sb : String) (rs : List OutRow)
    (h : (screen env scope fl sb none).1 = .ok rs) :
    (screen env scope fl sb (some 0)).1 = .ok rs
    ∧ (∀ n : ℤ, 0 < n →
        (screen env scope fl sb (some n)).1 = .ok (rs.take n.toNat))
    ∧ (∀ n : ℤ, n < 0 →
        (screen env scope fl sb (some n)).1
          = .ok (rs.take (rs.length - n.natAbs))) := by
  cases fl with
  | none =>
    have he : ∀ tn, screen env scope none sb tn
        = (if (screenLoad env scope).isEmptyDf then
             (Except.ok [], screenLoad env scope)
           else
             (rankProject (addScore (screenLoad env scope)) sb tn,
              addScore (screenLoad env scope))) := fun _ => rfl
    rw [he none] at h
    by_cases h1 : (screenLoad env scope).isEmptyDf
    · rw [if_pos h1] at h
      have h' : Except.ok (ε := String) ([] : List OutRow) = .ok rs := h
      cases h'
      refine ⟨?_, ?_, ?_⟩
      · rw [he (some 0), if_pos h1]
      · intro n _; rw [he (some n), if_pos h1]; simp
      · intro n _; rw [he (some n), if_pos h1]; simp
    · rw [if_neg h1] at h
      have h' : rankProject (addScore (screenLoad env scope)) sb none
          = .ok rs := h
      obtain ⟨a, b, c⟩ := rankProject_trunc h'
      refine ⟨?_, ?_, ?_⟩
      · rw [he (some 0), if_neg h1]; exact a
      · intro n hn; rw [he (some n), if_neg h1]; exact b n hn
      · intro n hn; rw [he (some n), if_neg h1]; exact c n hn
  | some f =>
    have he : ∀ tn, screen env scope (some f) sb tn
        = (if (screenLoad env scope).isEmptyDf then
             (Except.ok [], screenLoad env scope)
           else if (apply_filters (screenLoad env scope) f).isEmptyDf then
             (Except.ok [], screenLoad env scope)
           else
             (rankProject (addScore (apply_filters (screenLoad env scope) f))
                sb tn,
              screenLoad env scope)) := fun _ => rfl
    rw [he none] at h
    by_cases h1 : (screenLoad env scope).isEmptyDf
    · rw [if_pos h1] at h
      have h' : Except.ok (ε := String) ([] : List OutRow) = .ok rs := h
      cases h'
      refine ⟨?_, ?_, ?_⟩
      · rw [he (some 0), if_pos h1]
      · intro n _; rw [he (some n), if_pos h1]; simp
      · intro n _; rw [he (some n), if_pos h1]; simp
    · rw [if_neg h1] at h
      by_cases h2 : (apply_filters (screenLoad env scope) f).isEmptyDf
      · rw [if_pos h2] at h
        have h' : Except.ok (ε := String) ([] : List OutRow) = .ok rs := h
        cases h'
        refine ⟨?_, ?_, ?_⟩
        · rw [he (some 0), if_neg h1, if_pos h2]
        · intro n _; rw [he (some n), if_neg h1, if_pos h2]; simp
        · intro n _; rw [he (some n), if_neg h1, if_pos h2]; simp
      · rw [if_neg h2] at h
        have h' : rankProject
            (addScore (apply_filters (screenLoad env scope) f)) sb none
            = .ok rs := h
        obtain ⟨a, b, c⟩ := rankProject_trunc h'
        refine ⟨?_, ?_, ?_⟩
        · rw [he (some 0), if_neg h1, if_neg h2]; exact a
        · intro n hn; rw [he (some n), if_neg h1, if_neg h2]; exact b n hn
        · intro n hn; rw [he (some n), if_neg h1, if_neg h2]; exact c n hn

/-- The projected results of the three-row dataset `dfP`, sorted by score. -/
def rsP : List OutRow :=
  [⟨.pstr "A", .pstr "", .pstr "", .pstr "", .pfloat (.finite 8), .pstr "",
    .pstr "", .pint 65⟩,
   ⟨.pstr "B", .pstr "", .pstr "", .pstr "", .pfloat (.finite 12), .pstr "",
    .pstr "", .pint 60⟩,
   ⟨.pstr "C", .pstr "", .pstr "", .pstr "", .pfloat (.finite 18), .pstr "",
    .pstr "", .pint 55⟩]

/-- Witness for C10 amended on the three-row dataset at n = 2. -/
theorem c10_amended_witness :
    (screen envP "all" none "score" (some 0)).1 = .ok rsP
    ∧ (screen envP "all" none "score" (some 2)).1
      = .ok (rsP.take (Int.toNat 2)) := by
  obtain ⟨a, b, _⟩ := c10_amended envP "all" none "score" rsP rfl
  exact ⟨a, b 2 (by norm_num)⟩

end StockScreen
